import Mathlib

/-
Verification of the ming session layer (src/ming/session.py) against its
natural-language specification.

Documents and storage records are modelled as association lists from field
names to integer field values; absence of a field is represented by a failing
lookup.  The MongoDB collection handle reached through Session._impl is
modelled as a named collection inside a Storage structure, and the subset of
the pymongo query language that session.py uses (equality, the null filter
that also matches missing fields, and the lt comparison that never matches
missing fields) is embedded as the Cond type below.
-/

namespace Ming

/-- Field values are integers; a record (Python dict / BSON document) is an
association list from field names to values, earlier bindings shadowing later
ones exactly as lookups below are ordered. -/
abbrev Rec := List (String × Int)

/-- Lookup of the first binding of a key in an association list. -/
def alookup {α : Type} {β : Type} [DecidableEq α] : List (α × β) → α → Option β
  | [], _ => none
  | (k, v) :: rest, key => if k = key then some v else alookup rest key

/-- Overwrite the binding of a key, appending a new binding when the key is
absent; this is the effect of a Python dict item assignment. -/
def aset {α : Type} {β : Type} [DecidableEq α] : List (α × β) → α → β → List (α × β)
  | [], key, v => [(key, v)]
  | (k, w) :: rest, key, v =>
    if k = key then (key, v) :: rest else (k, w) :: aset rest key v

/-- Python dict.update: fold the new bindings into the record, later bindings
overwriting earlier ones. -/
def dictUpdate (r : Rec) (vals : List (String × Int)) : Rec :=
  vals.foldl (fun acc p => aset acc p.1 p.2) r

/-- A single filter condition of the pymongo query sublanguage that
session.py uses. -/
inductive Cond : Type where
  | ceq (v : Int)
  | cnull
  | clt (v : Int)
deriving DecidableEq

/-- A filter document: conjunction of per-field conditions. -/
abbrev Filter := List (String × Cond)

/-- Whether one condition holds of a record at a field.  The null condition
also matches a missing field, and the lt condition never matches a missing
field, as in MongoDB. -/
def condHolds (r : Rec) (k : String) : Cond → Bool
  | .ceq v => decide (alookup r k = some v)
  | .cnull => decide (alookup r k = none)
  | .clt v =>
    match alookup r k with
    | some w => decide (w < v)
    | none => false

/-- A record matches a filter when every condition of the filter holds. -/
def matchesF (flt : Filter) (r : Rec) : Bool :=
  flt.all (fun p => condHolds r p.1 p.2)

/-- Build a two-entry filter dict; a Python dict literal keeps only the later
binding when both entries use the same key. -/
def mkFilter2 (p q : String × Cond) : Filter :=
  if p.1 = q.1 then [q] else [p, q]

/-- Turn a keyword-argument equality mapping into a filter. -/
def eqFilter (kwargs : List (String × Int)) : Filter :=
  kwargs.map (fun p => (p.1, Cond.ceq p.2))

/-- Collection.find_one: the first record of the collection matching the
filter, or the absent sentinel. -/
def findOne (rs : List Rec) (flt : Filter) : Option Rec :=
  rs.find? (matchesF flt)

/-- Collection.update without multi: apply the set-modifier to the first
matching record only. -/
def updateFirst (flt : Filter) (vals : List (String × Int)) : List Rec → List Rec
  | [] => []
  | r :: rs =>
    if matchesF flt r then dictUpdate r vals :: rs else r :: updateFirst flt vals rs

/-- The storage engine: named collections plus a counter supplying generated
primary keys (standing for ObjectId generation). -/
structure Storage : Type where
  colls : List (String × List Rec)
  nextId : Int
deriving DecidableEq

/-- The records of a named collection (empty when never written). -/
def getColl (st : Storage) (n : String) : List Rec :=
  (alookup st.colls n).getD []

/-- Replace the records of a named collection. -/
def setColl (st : Storage) (n : String) (rs : List Rec) : Storage :=
  { st with colls := aset st.colls n rs }

/-- Transform the records of a named collection. -/
def updColl (st : Storage) (n : String) (f : List Rec → List Rec) : Storage :=
  setColl st n (f (getColl st n))

/-- Errors surfaced by the session operations, mirroring the Python
exceptions: schema ValidationError, ValueError from increase_field, KeyError
from dict indexing, AttributeError from a missing primary key attribute, and
IndexError from indexing an empty keyword list. -/
inductive Err : Type where
  | validation (msg : String)
  | valueError (key : String)
  | keyError (key : String)
  | attrError
  | indexError
deriving DecidableEq

/-- The per-type metadata reached through doc.__mongometa__.  The name and
the validator are read directly by session.py.  Modelled from the spec, since
base.py is not part of the sources: fields is the declared field list used by
Object.make when rejecting and stripping unknown fields, makeSafe is the
storage-format normalization Object.make_safe performed on the object, and
beforeSave is the optional pre-save lifecycle hook. -/
structure Meta : Type where
  name : String
  fields : List String
  schema : Option (Rec → Except String Rec)
  beforeSave : Option (Rec → Rec)
  makeSafe : Rec → Rec

/-- Validation step of every persist: the declared validator when present,
otherwise the raw field mapping dict(doc) is used as is. -/
def validateData (m : Meta) (d : Rec) : Except String Rec :=
  match m.schema with
  | none => Except.ok d
  | some f => f d

/-- Session.increase_field: reads the first keyword pair, rejects a null
value with ValueError, then issues the guarded null-conditional set followed
by the lt-conditional set.  The in-memory document is never written. -/
def increase_field (m : Meta) (doc : Rec) (kwargs : List (String × Option Int))
    (st : Storage) : Except Err Rec × Storage :=
  match kwargs with
  | [] => (Except.error Err.indexError, st)
  | (key, _) :: _ =>
    match alookup kwargs key with
    | none => (Except.error (Err.keyError key), st)
    | some none => (Except.error (Err.valueError key), st)
    | some (some v) =>
      match alookup doc "_id" with
      | none => (Except.error Err.attrError, st)
      | some i =>
        let st1 :=
          if alookup doc key = none then
            updColl st m.name
              (updateFirst (mkFilter2 ("_id", Cond.ceq i) (key, Cond.cnull)) [(key, v)])
          else st
        (Except.ok doc,
          updColl st1 m.name
            (updateFirst (mkFilter2 ("_id", Cond.ceq i) (key, Cond.clt v)) [(key, v)]))

/-- Sequence of all values of the named fields of a record, failing like the
dict indexing data[arg] with the first missing key. -/
def getAll (data : Rec) : List String → Except String (List (String × Int))
  | [] => Except.ok []
  | a :: rest =>
    match alookup data a with
    | none => Except.error a
    | some v => (getAll data rest).map (fun t => (a, v) :: t)

/-- Collection.update with a replacement document: replace the first matching
record keeping its stored primary key. -/
def replaceFirstKeep (flt : Filter) (d : Rec) : List Rec → List Rec
  | [] => []
  | r :: rs =>
    if matchesF flt r then
      (match alookup r "_id" with
       | some i => aset d "_id" i
       | none => d) :: rs
    else r :: replaceFirstKeep flt d rs

/-- Collection.update with upsert: replace the first match, or insert the
replacement document (generating a primary key when it has none). -/
def upsertReplace (flt : Filter) (d : Rec) (st : Storage) (n : String) : Storage :=
  if (getColl st n).any (matchesF flt) then
    updColl st n (replaceFirstKeep flt d)
  else
    match alookup d "_id" with
    | some _ => updColl st n (fun rs => rs ++ [d])
    | none =>
      let st1 := updColl st n (fun rs => rs ++ [aset d "_id" st.nextId])
      { st1 with nextId := st1.nextId + 1 }

/-- Collection.save: replace the record with the same primary key (or insert
it) and return that key; without a primary key, insert under a generated key
and return the generated key. -/
def mongoSave (st : Storage) (n : String) (data : Rec) : Int × Storage :=
  match alookup data "_id" with
  | some i =>
    if (getColl st n).any (matchesF [("_id", Cond.ceq i)]) then
      (i, updColl st n (replaceFirstKeep [("_id", Cond.ceq i)] data))
    else
      (i, updColl st n (fun rs => rs ++ [data]))
  | none =>
    let gid := st.nextId
    let st1 := updColl st n (fun rs => rs ++ [aset data "_id" gid])
    (gid, { st1 with nextId := st1.nextId + 1 })

/-- Collection.insert: append the record; a generated primary key is an
ObjectId and is returned as such (some), while an explicit key is echoed back
without being an ObjectId (none here, since session.py only tests the
ObjectId case). -/
def mongoInsert (st : Storage) (n : String) (data : Rec) : Option Int × Storage :=
  match alookup data "_id" with
  | some _ => (none, updColl st n (fun rs => rs ++ [data]))
  | none =>
    let gid := st.nextId
    let st1 := updColl st n (fun rs => rs ++ [aset data "_id" gid])
    (some gid, { st1 with nextId := st1.nextId + 1 })

/-- The pre-save preparation of Session.save: run the before-save hook when
the type declares one, then make_safe. -/
def prepSave (m : Meta) (doc : Rec) : Rec :=
  m.makeSafe
    (match m.beforeSave with
     | some h => h doc
     | none => doc)

/-- Session.save: hook, make_safe, validation, in-place refresh of the
document from the validated snapshot; then either the targeted field-set
update keyed by the primary key (partial_fields given) or the full
save-by-identity, writing a generated key back onto a keyless document. -/
def save (m : Meta) (doc : Rec) (args : List String) (st : Storage) :
    Except Err Rec × Storage :=
  let doc1 := prepSave m doc
  match validateData m doc1 with
  | Except.error e => (Except.error (Err.validation e), st)
  | Except.ok data =>
    let doc2 := dictUpdate doc1 data
    match args with
    | [] =>
      let p := mongoSave st m.name data
      let doc3 :=
        if alookup doc2 "_id" = none then aset doc2 "_id" p.1 else doc2
      (Except.ok doc3, p.2)
    | _ :: _ =>
      match getAll data args with
      | Except.error k => (Except.error (Err.keyError k), st)
      | Except.ok vals =>
        match alookup doc2 "_id" with
        | none => (Except.error Err.attrError, st)
        | some i =>
          (Except.ok doc2, updColl st m.name (updateFirst [("_id", Cond.ceq i)] vals))

/-- Session.insert: make_safe, validation, in-place refresh, unconditional
insert; a generated ObjectId is written back onto the document. -/
def insert (m : Meta) (doc : Rec) (st : Storage) : Except Err Rec × Storage :=
  let doc1 := m.makeSafe doc
  match validateData m doc1 with
  | Except.error e => (Except.error (Err.validation e), st)
  | Except.ok data =>
    let doc2 := dictUpdate doc1 data
    match mongoInsert st m.name data with
    | (none, st2) => (Except.ok doc2, st2)
    | (some gid, st2) => (Except.ok (dictUpdate doc2 [("_id", gid)]), st2)

/-- Session.upsert: make_safe, validation, in-place refresh, then a
replacement update with upsert under the filter built from the named spec
fields of the document. -/
def upsert (m : Meta) (doc : Rec) (specFields : List String) (st : Storage) :
    Except Err Rec × Storage :=
  let doc1 := m.makeSafe doc
  match validateData m doc1 with
  | Except.error e => (Except.error (Err.validation e), st)
  | Except.ok data =>
    let doc2 := dictUpdate doc1 data
    match getAll doc2 specFields with
    | Except.error k => (Except.error (Err.keyError k), st)
    | Except.ok flt => (Except.ok doc2, upsertReplace (eqFilter flt) doc2 st m.name)

/-- Unit-of-work classification of a tracked object.  Modelled from the spec,
since unit_of_work.py is not part of the sources: each tracked object is
clean, dirty, or new. -/
inductive UowS : Type where
  | clean
  | dirty
  | newObj
deriving DecidableEq

/-- Session-level state: the heap of live document objects (object identity
is the Nat reference), the identity map keyed by type name and primary key,
the unit-of-work ledger, the storage engine, and a counter of find_one round
trips used to observe whether a read consulted storage. -/
structure SState : Type where
  heap : List (Nat × Rec)
  nextRef : Nat
  imap : List ((String × Int) × Nat)
  uow : List (Nat × UowS)
  store : Storage
  findOneCalls : Nat
deriving DecidableEq

/-- IdentityMap.get.  Modelled from the spec, since identity_map.py is not
part of the sources: return the cached instance for the type and key, with no
side effect. -/
def imapGet (st : SState) (ty : String) (k : Int) : Option Nat :=
  alookup st.imap (ty, k)

/-- IdentityMap.save.  Modelled from the spec: register or overwrite the
cache entry under the primary key of the object; behavior is undefined
without a primary key, rendered here as a no-op. -/
def imapSave (st : SState) (ty : String) (ref : Nat) : SState :=
  match alookup st.heap ref with
  | none => st
  | some r =>
    match alookup r "_id" with
    | none => st
    | some k => { st with imap := aset st.imap (ty, k) ref }

/-- UnitOfWork.save_clean.  Modelled from the spec: record the object as
clean. -/
def uowSaveClean (st : SState) (ref : Nat) : SState :=
  { st with uow := aset st.uow ref UowS.clean }

/-- Object.make with allow_extra disabled and strip_extra enabled.  Modelled
from the spec, since base.py is not part of the sources: decode the raw
record keeping only the declared fields. -/
def makeStrip (m : Meta) (bson : Rec) : Rec :=
  bson.filter (fun p => decide (p.1 ∈ m.fields))

/-- Session.fresh_object: when the record carries a primary key cached in the
identity map, refresh that instance in place from the raw record; otherwise
allocate a new instance from the stripped record.  Either way the result is
registered in the identity map and marked clean. -/
def fresh_object (m : Meta) (bson : Rec) (st : SState) : Nat × SState :=
  let objOpt :=
    match alookup bson "_id" with
    | some k => imapGet st m.name k
    | none => none
  match objOpt with
  | none =>
    let ref := st.nextRef
    let st1 := { st with heap := aset st.heap ref (makeStrip m bson),
                         nextRef := st.nextRef + 1 }
    (ref, uowSaveClean (imapSave st1 m.name ref) ref)
  | some ref =>
    let old := (alookup st.heap ref).getD []
    let st1 := { st with heap := aset st.heap ref (dictUpdate old bson) }
    (ref, uowSaveClean (imapSave st1 m.name ref) ref)

/-- Session.get: when the filter is exactly the primary-key equality, consult
the identity map first and return a hit without touching storage; otherwise
issue a find_one, answering the absent sentinel on no match and materializing
through fresh_object on a match. -/
def get (m : Meta) (kwargs : List (String × Int)) (st : SState) :
    Option Nat × SState :=
  let r0 :=
    if kwargs.map Prod.fst = ["_id"] then
      match alookup kwargs "_id" with
      | some k => imapGet st m.name k
      | none => none
    else none
  match r0 with
  | some r => (some r, st)
  | none =>
    let st1 := { st with findOneCalls := st.findOneCalls + 1 }
    match findOne (getColl st.store m.name) (eqFilter kwargs) with
    | none => (none, st1)
    | some bson =>
      let p := fresh_object m bson st1
      (some p.1, p.2)

/-- Session.delete: remove every stored record carrying the primary key of
the document; nothing else in the session state is touched. -/
def delete (m : Meta) (doc : Rec) (st : SState) : Except Err Unit × SState :=
  match alookup doc "_id" with
  | none => (Except.error Err.attrError, st)
  | some i =>
    (Except.ok (),
      { st with store :=
          (updColl st.store m.name
            (fun rs => rs.filter (fun r => !(matchesF [("_id", Cond.ceq i)] r)))) })

/-- N sequential, non-concurrent increase_field calls for one field, keeping
only the storage state (the session holds no other state on this path). -/
def runIncreases (m : Meta) (doc : Rec) (key : String) (vs : List Int) (st : Storage) :
    Storage :=
  vs.foldl (fun s v => (increase_field m doc [(key, some v)] s).2) st

/-- A concrete document type used by the witnesses: collection users, declared
fields _id and score, no validator, no hook, trivial make_safe. -/
def metaW : Meta :=
  { name := "users", fields := ["_id", "score"], schema := none,
    beforeSave := none, makeSafe := id }

/-- The same type with a validator that rejects every document. -/
def metaBad : Meta :=
  { metaW with schema := some (fun _ => Except.error "bad") }

/-- Empty storage. -/
def stEmpty : Storage := { colls := [], nextId := 0 }

/-- Storage holding one users record with key 1 and no score field. -/
def stOne : Storage := { colls := [("users", [[("_id", 1)]])], nextId := 2 }

/-- Storage holding one users record with key 1, score 3 and an extra field. -/
def stFull : Storage :=
  { colls := [("users", [[("_id", 1), ("score", 3), ("x", 9)]])], nextId := 2 }

/-- A document that carries the field in memory while stOne does not store
it: the discriminating input for the increase_field claims. -/
def docC3 : Rec := [("_id", 1), ("score", 0)]

/-- An empty session over stOne. -/
def ssEmpty : SState :=
  { heap := [], nextRef := 0, imap := [], uow := [], store := stOne,
    findOneCalls := 0 }

/-- A session whose identity map already caches object 0 for key 1. -/
def ssCached : SState :=
  { heap := [(0, [("_id", 1)])], nextRef := 1, imap := [(("users", 1), 0)],
    uow := [(0, UowS.clean)], store := stOne, findOneCalls := 0 }

instance exceptDecEq {ε α : Type} [DecidableEq ε] [DecidableEq α] :
    DecidableEq (Except ε α) := fun x y =>
  match x, y with
  | Except.ok a, Except.ok b =>
    match decEq a b with
    | isTrue h => isTrue (by rw [h])
    | isFalse h => isFalse (by intro he; cases he; exact h rfl)
  | Except.error e, Except.error f =>
    match decEq e f with
    | isTrue h => isTrue (by rw [h])
    | isFalse h => isFalse (by intro he; cases he; exact h rfl)
  | Except.ok _, Except.error _ => isFalse (by intro he; cases he)
  | Except.error _, Except.ok _ => isFalse (by intro he; cases he)

theorem alookup_aset_self {α β : Type} [DecidableEq α] (l : List (α × β)) (k : α) (v : β) :
    alookup (aset l k v) k = some v := by
  induction l with
  | nil => simp [aset, alookup]
  | cons p rest ih =>
    by_cases h : p.1 = k
    · simp [aset, h, alookup]
    · simp [aset, h, alookup, ih]

theorem alookup_aset_ne {α β : Type} [DecidableEq α] (l : List (α × β)) (k k2 : α) (v : β)
    (h : k2 ≠ k) : alookup (aset l k v) k2 = alookup l k2 := by
  induction l with
  | nil => simp [aset, alookup, Ne.symm h]
  | cons p rest ih =>
    by_cases hp : p.1 = k
    · simp [aset, hp, alookup, Ne.symm h]
    · by_cases hq : p.1 = k2 <;> simp [aset, hp, alookup, hq, ih, h]

theorem aset_aset {α β : Type} [DecidableEq α] (l : List (α × β)) (k : α) (v w : β) :
    aset (aset l k v) k w = aset l k w := by
  induction l with
  | nil => simp [aset]
  | cons p rest ih =>
    by_cases h : p.1 = k
    · simp [aset, h]
    · simp [aset, h, ih]

theorem alookup_dictUpdate_not_mem (r : Rec) (vals : List (String × Int)) (f : String)
    (hf : f ∉ vals.map Prod.fst) : alookup (dictUpdate r vals) f = alookup r f := by
  induction vals generalizing r with
  | nil => rfl
  | cons p rest ih =>
    simp only [List.map_cons, List.mem_cons] at hf
    push_neg at hf
    simpa [dictUpdate] using
      (ih (aset r p.1 p.2) hf.2).trans (alookup_aset_ne r p.1 f p.2 hf.1)

theorem dictUpdate_single (r : Rec) (k : String) (v : Int) :
    dictUpdate r [(k, v)] = aset r k v := rfl

theorem getColl_updColl_self (st : Storage) (n : String) (f : List Rec → List Rec) :
    getColl (updColl st n f) n = f (getColl st n) := by
  simp [getColl, updColl, setColl, alookup_aset_self]

theorem getColl_updColl_ne (st : Storage) (n n2 : String) (f : List Rec → List Rec)
    (h : n2 ≠ n) : getColl (updColl st n f) n2 = getColl st n2 := by
  simp [getColl, updColl, setColl, alookup_aset_ne _ _ _ _ h]

theorem updateFirst_map_alookup (flt : Filter) (vals : List (String × Int)) (f : String)
    (hf : f ∉ vals.map Prod.fst) (rs : List Rec) :
    (updateFirst flt vals rs).map (fun r => alookup r f) = rs.map (fun r => alookup r f) := by
  induction rs with
  | nil => rfl
  | cons r rest ih =>
    by_cases h : matchesF flt r
    · simp [updateFirst, h, alookup_dictUpdate_not_mem r vals f hf]
    · simp [updateFirst, h, ih]

theorem updateFirst_forall2 (flt : Filter) (vals : List (String × Int)) (rs : List Rec) :
    List.Forall₂ (fun r2 r => r2 = r ∨ (matchesF flt r = true ∧ r2 = dictUpdate r vals))
      (updateFirst flt vals rs) rs := by
  induction rs with
  | nil => exact List.Forall₂.nil
  | cons r rest ih =>
    by_cases h : matchesF flt r
    · have he : updateFirst flt vals (r :: rest) = dictUpdate r vals :: rest := by
        simp [updateFirst, h]
      rw [he]
      exact List.Forall₂.cons (Or.inr ⟨h, rfl⟩) (List.forall₂_same.2 (fun x _ => Or.inl rfl))
    · have he : updateFirst flt vals (r :: rest) = r :: updateFirst flt vals rest := by
        simp [updateFirst, h]
      rw [he]
      exact List.Forall₂.cons (Or.inl rfl) ih

theorem updateFirst_of_no_match (flt : Filter) (vals : List (String × Int)) (rs : List Rec)
    (h : ∀ r ∈ rs, matchesF flt r = false) : updateFirst flt vals rs = rs := by
  induction rs with
  | nil => rfl
  | cons r rest ih =>
    have hr := h r (by simp)
    simp [updateFirst, hr, ih (fun x hx => h x (by simp [hx]))]

theorem matchesF_id_iff (r : Rec) (i : Int) :
    matchesF [("_id", Cond.ceq i)] r = true ↔ alookup r "_id" = some i := by
  simp [matchesF, condHolds]

theorem mkFilter2_ne (p q : String × Cond) (h : p.1 ≠ q.1) : mkFilter2 p q = [p, q] := by
  simp [mkFilter2, h]

theorem alookup_makeStrip (m : Meta) (bson : Rec) (f : String) (hf : f ∈ m.fields) :
    alookup (makeStrip m bson) f = alookup bson f := by
  induction bson with
  | nil => rfl
  | cons p rest ih =>
    by_cases h : p.1 ∈ m.fields
    · have he : makeStrip m (p :: rest) = p :: makeStrip m rest := by
        simp [makeStrip, h]
      by_cases hq : p.1 = f <;> simp [he, alookup, hq, ih]
    · have hq : p.1 ≠ f := fun he => h (he ▸ hf)
      have he : makeStrip m (p :: rest) = makeStrip m rest := by
        simp [makeStrip, h]
      simp [he, alookup, hq, ih]

/-- Effect of one increase_field call on a collection holding exactly one
record carrying the primary key of the document: the call succeeds, the
record becomes the guarded two-step update result, and no other collection is
touched. -/
theorem increase_field_unfold (m : Meta) (doc : Rec) (key : String) (v i : Int)
    (st : Storage) (hdid : alookup doc "_id" = some i) :
    increase_field m doc [(key, some v)] st =
      (Except.ok doc,
        updColl
          (if alookup doc key = none then
            updColl st m.name
              (updateFirst (mkFilter2 ("_id", Cond.ceq i) (key, Cond.cnull)) [(key, v)])
          else st)
          m.name
          (updateFirst (mkFilter2 ("_id", Cond.ceq i) (key, Cond.clt v)) [(key, v)])) := by
  simp [increase_field, alookup, hdid]

theorem increase_field_effect (m : Meta) (doc r : Rec) (key : String) (v i : Int)
    (st : Storage) (hkey : key ≠ "_id") (hdid : alookup doc "_id" = some i)
    (hrid : alookup r "_id" = some i) (hcoll : getColl st m.name = [r]) :
    (increase_field m doc [(key, some v)] st).1 = Except.ok doc ∧
    getColl (increase_field m doc [(key, some v)] st).2 m.name =
      [match alookup r key with
       | none => if alookup doc key = none then aset r key v else r
       | some w => if w < v then aset r key v else r] ∧
    (∀ cn, cn ≠ m.name → getColl (increase_field m doc [(key, some v)] st).2 cn =
      getColl st cn) := by
  have hflt : ∀ c : Cond, mkFilter2 ("_id", Cond.ceq i) (key, c) = [("_id", Cond.ceq i), (key, c)] :=
    fun c => mkFilter2_ne _ _ (Ne.symm hkey)
  rw [increase_field_unfold m doc key v i st hdid]
  refine ⟨rfl, ?_, ?_⟩
  · rw [getColl_updColl_self]
    by_cases hd : alookup doc key = none
    · rw [if_pos hd, getColl_updColl_self, hcoll, hflt, hflt]
      cases hr : alookup r key with
      | none =>
        have hm1 : matchesF [("_id", Cond.ceq i), (key, Cond.cnull)] r = true := by
          simp [matchesF, condHolds, hrid, hr]
        have hm2 : matchesF [("_id", Cond.ceq i), (key, Cond.clt v)] (aset r key v) = false := by
          simp [matchesF, condHolds, alookup_aset_self]
        simp [updateFirst, hm1, hm2, dictUpdate_single, hd]
      | some w =>
        have hm1 : matchesF [("_id", Cond.ceq i), (key, Cond.cnull)] r = false := by
          simp [matchesF, condHolds, hr]
        by_cases hw : w < v
        · have hm2 : matchesF [("_id", Cond.ceq i), (key, Cond.clt v)] r = true := by
            simp [matchesF, condHolds, hrid, hr, hw]
          simp [updateFirst, hm1, hm2, dictUpdate_single, hw]
        · have hm2 : matchesF [("_id", Cond.ceq i), (key, Cond.clt v)] r = false := by
            simp [matchesF, condHolds, hr, hw]
          simp [updateFirst, hm1, hm2, hw]
    · rw [if_neg hd, hcoll, hflt]
      cases hr : alookup r key with
      | none =>
        have hm2 : matchesF [("_id", Cond.ceq i), (key, Cond.clt v)] r = false := by
          simp [matchesF, condHolds, hr]
        simp [updateFirst, hm2, hd]
      | some w =>
        by_cases hw : w < v
        · have hm2 : matchesF [("_id", Cond.ceq i), (key, Cond.clt v)] r = true := by
            simp [matchesF, condHolds, hrid, hr, hw]
          simp [updateFirst, hm2, dictUpdate_single, hw]
        · have hm2 : matchesF [("_id", Cond.ceq i), (key, Cond.clt v)] r = false := by
            simp [matchesF, condHolds, hr, hw]
          simp [updateFirst, hm2, hw]
  · intro cn hcn
    rw [getColl_updColl_ne _ _ _ _ hcn]
    by_cases hd : alookup doc key = none
    · rw [if_pos hd, getColl_updColl_ne _ _ _ _ hcn]
    · rw [if_neg hd]

/-- Claim C3 counterexample: the stored record lacks the field, yet no set of
the field to the submitted value 5 is issued, because the guard of the first
update tests the in-memory document (which carries the field) and the first
update would in any case be conditional on the stored field being null; the
stored record still lacks the field after the call. -/
theorem increase_field_two_step_cex :
    (getColl stOne "users").map (fun r => alookup r "score") = [none] ∧
    (getColl (increase_field metaW docC3 [("score", some 5)] stOne).2 "users").map
      (fun r => alookup r "score") = [none] := by decide

/-- Claim C3 as amended: when the field is absent from the in-memory
document, increase_field first issues a storage update whose filter requires
the stored field to be null or absent, setting it to v; then, in all cases,
it issues a storage update whose filter requires the stored value to be
strictly less than v, setting the field to v only under that precondition.
On a collection holding exactly the record with the primary key of the
document, the stored field therefore becomes v when it was absent from both
the stored record and the document, stays absent when only the document
carries it, and becomes max(w, v) when it was w. -/
theorem increase_field_two_step (m : Meta) (doc r : Rec) (key : String) (v i : Int)
    (st : Storage) (hkey : key ≠ "_id") (hdid : alookup doc "_id" = some i)
    (hrid : alookup r "_id" = some i) (hcoll : getColl st m.name = [r]) :
    (increase_field m doc [(key, some v)] st).1 = Except.ok doc ∧
    ∃ r2, getColl (increase_field m doc [(key, some v)] st).2 m.name = [r2] ∧
      alookup r2 key =
        (match alookup r key with
         | none => if alookup doc key = none then some v else none
         | some w => some (max w v)) ∧
      (∀ f, f ≠ key → alookup r2 f = alookup r f) ∧
      (∀ cn, cn ≠ m.name → getColl (increase_field m doc [(key, some v)] st).2 cn =
        getColl st cn) := by
  obtain ⟨h1, h2, h3⟩ := increase_field_effect m doc r key v i st hkey hdid hrid hcoll
  refine ⟨h1, ?_⟩
  cases hr : alookup r key with
  | none =>
    by_cases hd : alookup doc key = none
    · refine ⟨aset r key v, ?_, ?_, ?_, h3⟩
      · rw [h2]; simp [hr, hd]
      · simp [alookup_aset_self, hd]
      · intro f hf; exact alookup_aset_ne r key f v hf
    · refine ⟨r, ?_, ?_, ?_, h3⟩
      · rw [h2]; simp [hr, hd]
      · simp [hr, hd]
      · intro f hf; rfl
  | some w =>
    by_cases hw : w < v
    · refine ⟨aset r key v, ?_, ?_, ?_, h3⟩
      · rw [h2]; simp [hr, hw]
      · simp [alookup_aset_self, max_eq_right hw.le]
      · intro f hf; exact alookup_aset_ne r key f v hf
    · refine ⟨r, ?_, ?_, ?_, h3⟩
      · rw [h2]; simp [hr, hw]
      · simp [hr, max_eq_left (not_lt.1 hw)]
      · intro f hf; rfl

/-- Witness for the amended claim C3 at a concrete input. -/
theorem increase_field_two_step_witness :
    ("score" ≠ "_id") ∧ (alookup [("_id", (1 : Int))] "_id" = some 1) ∧
    (getColl stOne metaW.name = [[("_id", 1)]]) ∧
    (increase_field metaW [("_id", 1)] [("score", some 5)] stOne).1 =
      Except.ok [("_id", 1)] :=
  ⟨by decide, by decide, by decide,
   (increase_field_two_step metaW [("_id", 1)] [("_id", 1)] "score" 5 1 stOne
     (by decide) (by decide) (by decide) (by decide)).1⟩

/-- Invariant of sequential increase_field calls once the field is stored:
each further call raises the stored value to the maximum of the running value
and the submitted one. -/
theorem runIncreases_inv (m : Meta) (doc r : Rec) (key : String) (i : Int)
    (hkey : key ≠ "_id")
    (hdid : alookup doc "_id" = some i) (hrid : alookup r "_id" = some i)
    (vs : List Int) :
    ∀ (c : Int) (st : Storage),
      getColl st m.name = [aset r key c] →
      getColl (runIncreases m doc key vs st) m.name = [aset r key (vs.foldl max c)] := by
  induction vs with
  | nil => intro c st hst; simpa [runIncreases] using hst
  | cons v vs ih =>
    intro c st hst
    have hrid2 : alookup (aset r key c) "_id" = some i :=
      (alookup_aset_ne r key "_id" c (Ne.symm hkey)).trans hrid
    obtain ⟨-, h2, -⟩ :=
      increase_field_effect m doc (aset r key c) key v i st hkey hdid hrid2 hst
    rw [alookup_aset_self] at h2
    have hstep : getColl (increase_field m doc [(key, some v)] st).2 m.name =
        [aset r key (max c v)] := by
      rw [h2]
      by_cases hw : c < v
      · simp [hw, aset_aset, max_eq_right hw.le]
      · simp [hw, max_eq_left (not_lt.1 hw)]
    have hrun : runIncreases m doc key (v :: vs) st =
        runIncreases m doc key vs (increase_field m doc [(key, some v)] st).2 := rfl
    rw [hrun, ih (max c v) _ hstep]
    rfl

/-- Claim C4 counterexample: the stored record lacks the field, one call
submits 5, yet storage is left completely unchanged (the stored value is not
the maximum submitted), because the in-memory document carries the field. -/
theorem monotonic_increase_cex :
    (getColl stOne "users").map (fun r => alookup r "score") = [none] ∧
    runIncreases metaW docC3 "score" [5] stOne = stOne := by decide

/-- Claim C4 as amended: starting from a stored record in which the field is
absent and an in-memory document that also lacks the field, N sequential
calls increase_field(field=i) leave the stored value equal to the maximum
value submitted; and a call whose value is smaller than the current stored
value leaves every stored collection unchanged. -/
theorem monotonic_increase_convergence (m : Meta) (doc r : Rec) (key : String)
    (i v0 : Int) (vs : List Int) (st : Storage)
    (hkey : key ≠ "_id") (hdoc : alookup doc key = none)
    (hdid : alookup doc "_id" = some i) (hrid : alookup r "_id" = some i)
    (hrkey : alookup r key = none) (hcoll : getColl st m.name = [r]) :
    (getColl (runIncreases m doc key (v0 :: vs) st) m.name).map
      (fun r2 => alookup r2 key) = [some (vs.foldl max v0)] ∧
    (∀ (st2 : Storage) (r2 : Rec) (w vless : Int), getColl st2 m.name = [r2] →
      alookup r2 "_id" = some i → alookup r2 key = some w → vless < w →
      ∀ cn, getColl (increase_field m doc [(key, some vless)] st2).2 cn =
        getColl st2 cn) := by
  constructor
  · obtain ⟨-, h2, -⟩ := increase_field_effect m doc r key v0 i st hkey hdid hrid hcoll
    rw [hrkey] at h2
    rw [hdoc] at h2
    have hstep : getColl (increase_field m doc [(key, some v0)] st).2 m.name =
        [aset r key v0] := by simpa using h2
    have hrun : runIncreases m doc key (v0 :: vs) st =
        runIncreases m doc key vs (increase_field m doc [(key, some v0)] st).2 := rfl
    rw [hrun, runIncreases_inv m doc r key i hkey hdid hrid vs v0 _ hstep]
    simp [alookup_aset_self]
  · intro st2 r2 w vless hst2 hid2 hkey2 hlt cn
    obtain ⟨-, h2, h3⟩ :=
      increase_field_effect m doc r2 key vless i st2 hkey hdid hid2 hst2
    by_cases hcn : cn = m.name
    · subst hcn
      rw [h2, hst2]
      simp [hkey2, not_lt.2 hlt.le, asymm hlt]
    · exact h3 cn hcn

/-- Witness for the amended claim C4 at a concrete input. -/
theorem monotonic_increase_convergence_witness :
    (alookup ([("_id", (1 : Int))] : Rec) "score" = none) ∧
    (getColl stOne metaW.name = [[("_id", 1)]]) ∧
    (getColl (runIncreases metaW [("_id", 1)] "score" [5, 3, 7] stOne) metaW.name).map
      (fun r2 => alookup r2 "score") = [some (([3, 7] : List Int).foldl max 5)] :=
  ⟨by decide, by decide,
   (monotonic_increase_convergence metaW [("_id", 1)] [("_id", 1)] "score" 1 5 [3, 7]
     stOne (by decide) (by decide) (by decide) (by decide) (by decide) (by decide)).1⟩

/-- Claim C5: increase_field called with a null (None) value raises
ValueError before any storage call is made, so storage is unchanged whenever
this error is raised. -/
theorem increase_field_null_rejected (m : Meta) (doc : Rec) (k : String)
    (rest : List (String × Option Int)) (st : Storage) :
    increase_field m doc ((k, none) :: rest) st = (Except.error (Err.valueError k), st) := by
  simp [increase_field, alookup]

/-- Claim C6: increase_field never mutates the in-memory document; whenever
the call succeeds, the document it hands back is exactly the input
document. -/
theorem increase_field_no_local_change (m : Meta) (doc : Rec)
    (kwargs : List (String × Option Int)) (st : Storage) (d : Rec) (st2 : Storage)
    (h : increase_field m doc kwargs st = (Except.ok d, st2)) : d = doc := by
  unfold increase_field at h
  repeat' split at h
  all_goals simp_all

/-- Witness for claim C6 at a concrete input. -/
theorem increase_field_no_local_change_witness :
    increase_field metaW [("_id", 1)] [("score", some 3)] stEmpty =
      (Except.ok [("_id", 1)], { colls := [("users", [])], nextId := 0 }) ∧
    ([("_id", 1)] : Rec) = [("_id", 1)] := by
  refine ⟨by decide, ?_⟩
  exact increase_field_no_local_change metaW [("_id", 1)] [("score", some 3)] stEmpty
    [("_id", 1)] { colls := [("users", [])], nextId := 0 } (by decide)

/-- Claim C10: increase_field with more than one keyword pair behaves exactly
like the call restricted to the first pair, ignoring the rest, and succeeds
(no invalid-argument error) whenever the first value is non-null and the
document carries a primary key. -/
theorem increase_field_first_pair_only (m : Meta) (doc : Rec) (k : String)
    (vo : Option Int) (rest : List (String × Option Int)) (st : Storage) :
    increase_field m doc ((k, vo) :: rest) st = increase_field m doc [(k, vo)] st ∧
    (∀ v i, vo = some v → alookup doc "_id" = some i →
      (increase_field m doc ((k, vo) :: rest) st).1 = Except.ok doc) := by
  constructor
  · simp [increase_field, alookup]
  · intro v i hv hid
    subst hv
    simp [increase_field, alookup, hid]

/-- Witness for claim C10 at a concrete input with two keyword pairs. -/
theorem increase_field_first_pair_only_witness :
    (increase_field metaW [("_id", 1)] [("a", some 5), ("b", some 9)] stOne =
      increase_field metaW [("_id", 1)] [("a", some 5)] stOne) ∧
    (increase_field metaW [("_id", 1)] [("a", some 5), ("b", some 9)] stOne).1 =
      Except.ok [("_id", 1)] :=
  ⟨(increase_field_first_pair_only metaW [("_id", 1)] "a" (some 5) [("b", some 9)] stOne).1,
   (increase_field_first_pair_only metaW [("_id", 1)] "a" (some 5) [("b", some 9)] stOne).2
     5 1 rfl (by decide)⟩

theorem getAll_keys (data : Rec) (args : List String) (vals : List (String × Int))
    (h : getAll data args = Except.ok vals) : vals.map Prod.fst = args := by
  induction args generalizing vals with
  | nil =>
    simp [getAll] at h
    subst h
    rfl
  | cons a rest ih =>
    cases ha : alookup data a with
    | none => simp [getAll, ha] at h
    | some v =>
      simp only [getAll, ha] at h
      cases hg : getAll data rest with
      | error e => rw [hg] at h; simp [Except.map] at h
      | ok t =>
        rw [hg] at h
        simp [Except.map] at h
        subst h
        simp [ih t hg]

/-- Claim C7: for a save with at least one named field, every field of every
stored record other than the named fields is unchanged, collections of other
types are untouched, and records not carrying the primary key of the saved
document are untouched entirely. -/
theorem partial_save_isolation (m : Meta) (doc : Rec) (args : List String)
    (st : Storage) (hargs : args ≠ []) :
    (∀ f, f ∉ args → ∀ cn,
      (getColl (save m doc args st).2 cn).map (fun r => alookup r f) =
        (getColl st cn).map (fun r => alookup r f)) ∧
    (∀ cn, cn ≠ m.name → getColl (save m doc args st).2 cn = getColl st cn) ∧
    (∀ d, (save m doc args st).1 = Except.ok d → ∀ i, alookup d "_id" = some i →
      List.Forall₂ (fun r2 r => alookup r "_id" ≠ some i → r2 = r)
        (getColl (save m doc args st).2 m.name) (getColl st m.name)) := by
  cases hargs2 : args with
  | nil => exact absurd hargs2 hargs
  | cons a rest =>
    subst hargs2
    cases hv : validateData m (prepSave m doc) with
    | error e => simp [save, hv]
    | ok data =>
      cases hg : getAll data (a :: rest) with
      | error k => simp [save, hv, hg]
      | ok vals =>
        cases hid : alookup (dictUpdate (prepSave m doc) data) "_id" with
        | none => simp [save, hv, hg, hid]
        | some i0 =>
          have hsave : save m doc (a :: rest) st =
              (Except.ok (dictUpdate (prepSave m doc) data),
               updColl st m.name (updateFirst [("_id", Cond.ceq i0)] vals)) := by
            simp [save, hv, hg, hid]
          rw [hsave]
          have hkeys : vals.map Prod.fst = a :: rest := getAll_keys data (a :: rest) vals hg
          refine ⟨?_, ?_, ?_⟩
          · intro f hf cn
            by_cases hcn : cn = m.name
            · subst hcn
              rw [getColl_updColl_self]
              exact updateFirst_map_alookup _ vals f (hkeys ▸ hf) _
            · rw [getColl_updColl_ne _ _ _ _ hcn]
          · intro cn hcn
            exact getColl_updColl_ne _ _ _ _ hcn
          · intro d hd i hi
            have hdd : d = dictUpdate (prepSave m doc) data := by
              cases hd; rfl
            subst hdd
            have hii : i0 = i := by rw [hid] at hi; cases hi; rfl
            subst hii
            rw [getColl_updColl_self]
            refine List.Forall₂.imp ?_ (updateFirst_forall2 [("_id", Cond.ceq i0)] vals _)
            intro r2 r hor hne
            cases hor with
            | inl h => exact h
            | inr h => exact absurd ((matchesF_id_iff r i0).1 h.1) hne

/-- Witness for claim C7 at a concrete input: the field x of the stored
record is untouched by a save restricted to the field score. -/
theorem partial_save_isolation_witness :
    ((["score"] : List String) ≠ []) ∧
    (getColl (save metaW [("_id", 1), ("score", 4), ("x", 9)] ["score"] stFull).2
        "users").map (fun r => alookup r "x") =
      (getColl stFull "users").map (fun r => alookup r "x") :=
  ⟨by decide,
   (partial_save_isolation metaW [("_id", 1), ("score", 4), ("x", 9)] ["score"] stFull
     (by decide)).1 "x" (by decide) "users"⟩

/-- Claim C8: a ValidationError raised by the validator during save, insert
or upsert propagates unchanged to the caller, and storage is unchanged on the
error path. -/
theorem validation_error_propagates (m : Meta) (doc : Rec) (args : List String)
    (sf : List String) (st : Storage) (e1 e2 : String)
    (h1 : validateData m (prepSave m doc) = Except.error e1)
    (h2 : validateData m (m.makeSafe doc) = Except.error e2) :
    save m doc args st = (Except.error (Err.validation e1), st) ∧
    insert m doc st = (Except.error (Err.validation e2), st) ∧
    upsert m doc sf st = (Except.error (Err.validation e2), st) := by
  refine ⟨?_, ?_, ?_⟩
  · simp [save, h1]
  · simp [insert, h2]
  · simp [upsert, h2]

/-- Witness for claim C8 at a concrete input with an always-failing
validator. -/
theorem validation_error_propagates_witness :
    validateData metaBad (prepSave metaBad [("x", 1)]) = Except.error "bad" ∧
    save metaBad [("x", 1)] [] stEmpty = (Except.error (Err.validation "bad"), stEmpty) :=
  ⟨rfl,
   (validation_error_propagates metaBad [("x", 1)] [] [] stEmpty "bad" "bad" rfl rfl).1⟩

theorem imapSave_proj (st : SState) (ty : String) (ref : Nat) :
    (imapSave st ty ref).heap = st.heap ∧ (imapSave st ty ref).nextRef = st.nextRef ∧
    (imapSave st ty ref).uow = st.uow ∧ (imapSave st ty ref).store = st.store ∧
    (imapSave st ty ref).findOneCalls = st.findOneCalls := by
  unfold imapSave
  repeat' split
  all_goals exact ⟨rfl, rfl, rfl, rfl, rfl⟩

theorem fresh_object_findOneCalls (m : Meta) (bson : Rec) (st : SState) :
    (fresh_object m bson st).2.findOneCalls = st.findOneCalls := by
  unfold fresh_object
  simp only [uowSaveClean]
  repeat' split
  all_goals simp [(imapSave_proj _ _ _).2.2.2.2]

theorem get_hit (m : Meta) (st : SState) (K : Int) (r : Nat)
    (h : imapGet st m.name K = some r) : get m [("_id", K)] st = (some r, st) := by
  simp [get, alookup, h]

theorem fresh_object_new (m : Meta) (bson : Rec) (st : SState) (K : Int)
    (hbid : alookup bson "_id" = some K)
    (hmiss : imapGet st m.name K = none)
    (hfld : "_id" ∈ m.fields) :
    (fresh_object m bson st).1 = st.nextRef ∧
    imapGet (fresh_object m bson st).2 m.name K = some st.nextRef := by
  have hstrip : alookup (makeStrip m bson) "_id" = some K :=
    (alookup_makeStrip m bson "_id" hfld).trans hbid
  unfold fresh_object
  simp only [hbid, hmiss]
  have hheap : alookup
      (aset st.heap st.nextRef (makeStrip m bson)) st.nextRef =
      some (makeStrip m bson) := alookup_aset_self _ _ _
  refine ⟨by first | rfl | trivial, ?_⟩
  simp only [imapSave, hheap, hstrip, uowSaveClean, imapGet]
  exact alookup_aset_self _ _ _

theorem get_miss_found (m : Meta) (st : SState) (K : Int) (bson : Rec)
    (hmiss : imapGet st m.name K = none)
    (hf : findOne (getColl st.store m.name) (eqFilter [("_id", K)]) = some bson) :
    get m [("_id", K)] st =
      (some (fresh_object m bson { st with findOneCalls := st.findOneCalls + 1 }).1,
       (fresh_object m bson { st with findOneCalls := st.findOneCalls + 1 }).2) := by
  simp [get, alookup, hmiss, hf]

/-- Claim C9: with the filter exactly the primary-key equality, an identity
map hit is returned without touching storage or the session state; on a miss,
or with any other filter, one find_one round trip is issued, and when nothing
matches the absent sentinel is returned rather than an error. -/
theorem get_consults_imap_then_storage (m : Meta) (st : SState) (v : Int) :
    (∀ r, imapGet st m.name v = some r → get m [("_id", v)] st = (some r, st)) ∧
    (imapGet st m.name v = none →
      (get m [("_id", v)] st).2.findOneCalls = st.findOneCalls + 1 ∧
      (findOne (getColl st.store m.name) (eqFilter [("_id", v)]) = none →
        (get m [("_id", v)] st).1 = none)) ∧
    (∀ kwargs : List (String × Int), kwargs.map Prod.fst ≠ ["_id"] →
      (get m kwargs st).2.findOneCalls = st.findOneCalls + 1 ∧
      (findOne (getColl st.store m.name) (eqFilter kwargs) = none →
        (get m kwargs st).1 = none)) := by
  refine ⟨fun r h => get_hit m st v r h, ?_, ?_⟩
  · intro h
    cases hf : findOne (getColl st.store m.name) (eqFilter [("_id", v)]) with
    | none =>
      have hget : get m [("_id", v)] st =
          (none, { st with findOneCalls := st.findOneCalls + 1 }) := by
        simp [get, alookup, h, hf]
      rw [hget]
      exact ⟨rfl, fun _ => rfl⟩
    | some bson =>
      rw [get_miss_found m st v bson h hf]
      refine ⟨?_, fun hc => by simp [hf] at hc⟩
      simpa using fresh_object_findOneCalls m bson _
  · intro kwargs hk
    cases hf : findOne (getColl st.store m.name) (eqFilter kwargs) with
    | none =>
      have hget : get m kwargs st =
          (none, { st with findOneCalls := st.findOneCalls + 1 }) := by
        simp [get, hk, hf]
      rw [hget]
      exact ⟨rfl, fun _ => rfl⟩
    | some bson =>
      have hget : get m kwargs st =
          (some (fresh_object m bson { st with findOneCalls := st.findOneCalls + 1 }).1,
           (fresh_object m bson { st with findOneCalls := st.findOneCalls + 1 }).2) := by
        simp [get, hk, hf]
      rw [hget]
      refine ⟨?_, fun hc => by simp [hf] at hc⟩
      simpa using fresh_object_findOneCalls m bson _

/-- Witness for claim C9: a cached hit is answered from the identity map
without a find_one, and a non-trivial filter costs one find_one. -/
theorem get_consults_imap_then_storage_witness :
    get metaW [("_id", 1)] ssCached = (some 0, ssCached) ∧
    (get metaW [("score", 5)] ssCached).2.findOneCalls = ssCached.findOneCalls + 1 :=
  ⟨(get_consults_imap_then_storage metaW ssCached 1).1 0 (by decide),
   ((get_consults_imap_then_storage metaW ssCached 1).2.2 [("score", 5)] (by decide)).1⟩

/-- Claim C1: two get calls by the same primary key against the same session,
the second running in the state left by the first, return the same object
reference whenever both return a non-absent result; materialization through
fresh_object registers the constructed object in the identity map, so the
second call is answered by the cache. -/
theorem identity_uniqueness (m : Meta) (st : SState) (K : Int) (a b : Nat)
    (hfld : "_id" ∈ m.fields)
    (h1 : (get m [("_id", K)] st).1 = some a)
    (h2 : (get m [("_id", K)] (get m [("_id", K)] st).2).1 = some b) :
    a = b := by
  cases him : imapGet st m.name K with
  | some r =>
    have hget := get_hit m st K r him
    rw [hget] at h1 h2
    simp only at h1
    rw [get_hit m st K r him] at h2
    simp only at h2
    cases h1
    cases h2
    rfl
  | none =>
    cases hf : findOne (getColl st.store m.name) (eqFilter [("_id", K)]) with
    | none =>
      have hget : get m [("_id", K)] st =
          (none, { st with findOneCalls := st.findOneCalls + 1 }) := by
        simp [get, alookup, him, hf]
      rw [hget] at h1
      cases h1
    | some bson =>
      have hbid : alookup bson "_id" = some K := by
        have hm := List.find?_some hf
        have := (matchesF_id_iff bson K).1 (by simpa [eqFilter, matchesF] using hm)
        exact this
      set st1 : SState := { st with findOneCalls := st.findOneCalls + 1 } with hst1
      have hmiss1 : imapGet st1 m.name K = none := him
      obtain ⟨href, hreg⟩ := fresh_object_new m bson st1 K hbid hmiss1 hfld
      have hget := get_miss_found m st K bson him hf
      rw [hget] at h1 h2
      simp only at h1
      rw [href] at h1
      have hget2 := get_hit m (fresh_object m bson st1).2 K st1.nextRef
        (by rw [hreg])
      rw [hget2] at h2
      simp only at h2
      cases h1
      cases h2
      rfl

/-- Witness for claim C1: both gets on an initially empty session over a
storage holding the record return the same freshly materialized object. -/
theorem identity_uniqueness_witness :
    ("_id" ∈ metaW.fields) ∧
    (get metaW [("_id", 1)] ssEmpty).1 = some 0 ∧
    (get metaW [("_id", 1)] (get metaW [("_id", 1)] ssEmpty).2).1 = some 0 ∧
    (0 : Nat) = 0 :=
  ⟨by decide, by decide, by decide,
   identity_uniqueness metaW ssEmpty 1 0 0 (by decide) (by decide) (by decide)⟩

/-- Claim C2 counterexample: after delete, the stored record is gone, but the
identity map still holds the entry for the key, the unit of work still tracks
the object, and a subsequent get by that key is answered from the cache
without any find_one round trip. -/
theorem delete_keeps_imap_cex :
    imapGet (delete metaW [("_id", 1)] ssCached).2 "users" 1 = some 0 ∧
    alookup (delete metaW [("_id", 1)] ssCached).2.uow 0 = some UowS.clean ∧
    getColl (delete metaW [("_id", 1)] ssCached).2.store "users" = [] ∧
    (get metaW [("_id", 1)] (delete metaW [("_id", 1)] ssCached).2).2.findOneCalls = 0 := by
  decide

/-- Claim C2 as amended: delete removes the stored records carrying the
primary key of the document from storage, but leaves the identity map, the
unit of work and the heap untouched, so a later get by that key is still
answered from the cache without consulting storage. -/
theorem delete_keeps_tracking (m : Meta) (doc : Rec) (st : SState) (i : Int)
    (hdid : alookup doc "_id" = some i) :
    (delete m doc st).1 = Except.ok () ∧
    (delete m doc st).2.imap = st.imap ∧
    (delete m doc st).2.uow = st.uow ∧
    (delete m doc st).2.heap = st.heap ∧
    (delete m doc st).2.findOneCalls = st.findOneCalls ∧
    getColl (delete m doc st).2.store m.name =
      (getColl st.store m.name).filter (fun r => !(matchesF [("_id", Cond.ceq i)] r)) ∧
    (∀ K r, imapGet st m.name K = some r →
      get m [("_id", K)] (delete m doc st).2 = (some r, (delete m doc st).2)) := by
  have hdel : delete m doc st =
      (Except.ok (),
        { st with store :=
            (updColl st.store m.name
              (fun rs => rs.filter (fun r => !(matchesF [("_id", Cond.ceq i)] r)))) }) := by
    simp [delete, hdid]
  rw [hdel]
  refine ⟨rfl, rfl, rfl, rfl, rfl, getColl_updColl_self _ _ _, ?_⟩
  intro K r h
  exact get_hit m _ K r h

/-- Witness for the amended claim C2 at a concrete input. -/
theorem delete_keeps_tracking_witness :
    (alookup ([("_id", (1 : Int))] : Rec) "_id" = some 1) ∧
    (delete metaW [("_id", 1)] ssCached).2.imap = ssCached.imap :=
  ⟨by decide, (delete_keeps_tracking metaW [("_id", 1)] ssCached 1 (by decide)).2.1⟩

end Ming
